import Mathlib

/-!
Verification development for `robomimic/algo/diffusion_policy.py`
(class `DiffusionPolicyUNet`).

The Python class is shallowly embedded as pure Lean functions:

* `deque_append` / `deque_extend` model Python's `collections.deque`
  with a `maxlen` bound (appending to a full deque silently discards
  entries from the opposite end).
* `QueueState`, `reset`, `get_action`, `run_rollout` model the inference
  queue manager (`reset` / `get_action`, lines 277-331).  The expensive
  call `self._get_action_trajectory(obs_dict)[0]` is abstracted as a
  function `sampler : O → List A`; `get_action` additionally reports
  whether the sampler was invoked, and `run_rollout` counts the
  invocations over a sequence of calls.
* `action_window` models the slice `naction[:, To-1 : To-1+Ta]`
  (lines 389-392) for one batch element.
* `get_action_trajectory` models `_get_action_trajectory`
  (lines 333-393) for batch size one: the observation encoder, the
  noise-prediction network and the scheduler are abstract functions,
  the denoising loop is a fold over the scheduler's timestep list.
* `process_batch_for_training`, `train_on_batch_model` and `train_step`
  model the training path (lines 133-258): slicing to `To`/`Tp`, the
  cached `[-1,1]` action-range check, the gradient step and the EMA
  update.  Action tensors are embedded as
  `List (List (List ℚ))` (batch × time × action dimension).
* `serialize` / `deserialize` model checkpoint save/load
  (lines 395-432) with abstract state-dict payloads.
-/

namespace DiffusionPolicy

variable {O A N Obs Cond P S : Type}

/-! ## Bounded deques (`collections.deque` with `maxlen`) -/

/-- One `deque.append` on a deque with bound `maxlen`: the new element is
added on the right and, if the result is over the bound, the oldest
entries on the left are discarded (Python discards silently). -/
def deque_append (maxlen : Nat) (q : List A) (x : A) : List A :=
  (q ++ [x]).drop (q.length + 1 - maxlen)

/-- `deque.extend xs`: append each element of `xs` in order. -/
def deque_extend (maxlen : Nat) (q : List A) (xs : List A) : List A :=
  xs.foldl (deque_append maxlen) q

/-! ## Queue manager (`reset` / `get_action`, lines 277-331) -/

/-- Inference-time state set up by `reset`: the two deques together with
their capacities `To` (observation horizon) and `Ta` (action horizon). -/
structure QueueState (O A : Type) where
  To : Nat
  Ta : Nat
  obs_queue : List O
  action_queue : List A
  deriving Repr, DecidableEq

/-- `reset` (lines 277-287): fresh empty deques with `maxlen = To`
resp. `maxlen = Ta`. -/
def reset (To Ta : Nat) : QueueState O A :=
  { To := To, Ta := Ta, obs_queue := [], action_queue := [] }

/-- `get_action` (lines 289-331).  If the action queue is empty the
sampler is run on the `obs_dict` argument and its whole output is
`extend`ed into the queue; then the oldest queued action is popped and
returned.  `popleft` on an empty deque raises `IndexError`, modelled as
`none`.  The `Bool` in the result records whether the sampler ran. -/
def get_action (sampler : O → List A) (s : QueueState O A) (obs : O) :
    Option (A × QueueState O A × Bool) :=
  let qs : List A × Bool :=
    if s.action_queue.length = 0 then
      (deque_extend s.Ta s.action_queue (sampler obs), true)
    else
      (s.action_queue, false)
  match qs with
  | ([], _) => none
  | (a :: rest, sampled) => some (a, { s with action_queue := rest }, sampled)

/-- Repeated `get_action` over a list of per-step observations, from a
given state.  Returns the actions in order, the final state and the
total number of sampler invocations; `none` if any call failed. -/
def run_rollout (sampler : O → List A) :
    QueueState O A → List O → Option (List A × QueueState O A × Nat)
  | s, [] => some ([], s, 0)
  | s, obs :: rest =>
    match get_action sampler s obs with
    | none => none
    | some (a, s1, sampled) =>
      match run_rollout sampler s1 rest with
      | none => none
      | some (acts, s2, n) =>
        some (a :: acts, s2, (if sampled then 1 else 0) + n)

/-! ## Action-window slice and sampler (`_get_action_trajectory`) -/

/-- The slice `naction[:, To-1 : To-1+Ta]` of lines 390-392, for one
batch element embedded as a list over the time axis. -/
def action_window (To Ta : Nat) (naction : List A) : List A :=
  (naction.drop (To - 1)).take Ta

/-- The trajectory `_get_action_trajectory(obs_dict)[0]` that
`get_action` enqueues, with the fully denoised `naction[0]` (a length
`Tp` list of action vectors) abstracted as `denoise : O → List A`:
the returned trajectory is the `[To-1, To-1+Ta)` time window of it. -/
def policy_sampler (To Ta : Nat) (denoise : O → List A) : O → List A :=
  fun o => action_window To Ta (denoise o)

/-- `EMAModel` of `diffusers.training_utils`: only the field read at
inference time, the shadow parameter set `averaged_model`. -/
structure EMAModel (N : Type) where
  averaged_model : N

/-- Lines 346-349: `nets = self.nets; if self.ema is not None:
nets = self.ema.averaged_model`. -/
def select_nets (nets : N) (ema : Option (EMAModel N)) : N :=
  match ema with
  | some e => e.averaged_model
  | none => nets

/-- The DDPM/DDIM configuration flags read by
`_get_action_trajectory` (lines 339-344). -/
structure DiffusionConfig where
  ddpm_enabled : Bool
  ddim_enabled : Bool
  ddpm_num_inference_timesteps : Nat
  ddim_num_inference_timesteps : Nat

/-- The reverse-diffusion loop of lines 374-387: for each timestep `k`
in the scheduler's configured sequence, predict the noise and apply the
scheduler's inverse step, replacing the current sample. -/
def denoise_loop (predict : List A → Nat → List A)
    (sched_step : List A → Nat → List A → List A)
    (timesteps : List Nat) (init : List A) : List A :=
  timesteps.foldl (fun naction k => sched_step (predict naction k) k naction) init

/-- `_get_action_trajectory` (lines 333-393), for batch size one.

`training` is `self.nets.training`; `set_timesteps n` is the scheduler's
timestep sequence after `set_timesteps(n)`; `encode nets obs` is the
time-distributed observation encoding flattened to the conditioning
vector; `predict nets samp k cond` is `noise_pred_net(samp, k,
global_cond=cond)`; `sched_step out k samp` is
`noise_scheduler.step(out, k, samp).prev_sample`; `init_noise` is the
`torch.randn((1, Tp, Da))` draw.  The leading `assert not
self.nets.training` and the DDPM/DDIM variant selection are modelled as
`Except` errors. -/
def get_action_trajectory (training : Bool) (cfg : DiffusionConfig)
    (set_timesteps : Nat → List Nat)
    (encode : N → Obs → Cond)
    (predict : N → List A → Nat → Cond → List A)
    (sched_step : List A → Nat → List A → List A)
    (To Ta : Nat) (nets : N) (ema : Option (EMAModel N))
    (obs : Obs) (init_noise : List A) : Except String (List A) :=
  if training then
    Except.error "AssertionError: not self.nets.training"
  else if cfg.ddpm_enabled = false ∧ cfg.ddim_enabled = false then
    Except.error "ValueError"
  else
    let num_inference_timesteps :=
      if cfg.ddpm_enabled then cfg.ddpm_num_inference_timesteps
      else cfg.ddim_num_inference_timesteps
    let n := select_nets nets ema
    let obs_cond := encode n obs
    let naction :=
      denoise_loop (fun samp k => predict n samp k obs_cond) sched_step
        (set_timesteps num_inference_timesteps) init_noise
    Except.ok (action_window To Ta naction)

/-! ## Training path (`process_batch_for_training` / `train_on_batch`) -/

/-- A data-loader batch: one observation modality embedded as
batch × time feature values, an optional goal, and actions embedded as
batch × time × action-dimension rational values. -/
structure TrainBatch where
  obs : List (List ℚ)
  goal_obs : Option (List ℚ)
  actions : List (List (List ℚ))
  deriving Repr, DecidableEq

/-- The mutable per-run algorithm state touched by training: the cached
range-check flag (line 128), the trainable parameters, and the optional
EMA shadow parameters. -/
structure AlgoTrainState (P : Type) where
  action_check_done : Bool
  nets : P
  ema : Option P
  deriving Repr, DecidableEq

/-- Lines 162-164: `torch.all((-1 <= actions) & (actions <= 1))`. -/
def actions_in_range (actions : List (List (List ℚ))) : Bool :=
  actions.all fun traj => traj.all fun a => a.all fun v => decide (-1 ≤ v ∧ v ≤ 1)

/-- `process_batch_for_training` (lines 133-171): slice observations to
the first `To` timesteps and actions to the first `Tp` timesteps; if the
range check has not yet run, check the sliced actions are in `[-1,1]`,
raising `ValueError` otherwise, and cache that the check is done. -/
def process_batch_for_training (To Tp : Nat) (s : AlgoTrainState P)
    (batch : TrainBatch) : Except String (TrainBatch × AlgoTrainState P) :=
  let input_batch : TrainBatch :=
    { obs := batch.obs.map (List.take To)
      goal_obs := batch.goal_obs
      actions := batch.actions.map (List.take Tp) }
  if s.action_check_done = false then
    if actions_in_range input_batch.actions then
      Except.ok (input_batch, { s with action_check_done := true })
    else
      Except.error "ValueError: actions must be in range [-1,1] for Diffusion Policy"
  else
    Except.ok (input_batch, s)

/-- `train_on_batch` (lines 173-258) after batch processing, with the
loss/backprop step abstracted as `gradStep` and `EMAModel.step`
abstracted as `emaStep shadow nets`.  When `validate` is true no
parameter is updated; otherwise one gradient step runs and then, if EMA
is enabled, the shadow parameters advance from the updated nets. -/
def train_on_batch_model (gradStep : P → TrainBatch → P) (emaStep : P → P → P)
    (s : AlgoTrainState P) (batch : TrainBatch) (validate : Bool) :
    AlgoTrainState P :=
  if validate then s
  else
    let nets := gradStep s.nets batch
    { s with nets := nets, ema := s.ema.map fun sh => emaStep sh nets }

/-- One full training call as the outer loop performs it: process the
raw batch, then train on it.  The state is returned unchanged alongside
the error when processing raises (the exception propagates before any
parameter mutation). -/
def train_step (gradStep : P → TrainBatch → P) (emaStep : P → P → P)
    (To Tp : Nat) (s : AlgoTrainState P) (raw : TrainBatch) (validate : Bool) :
    AlgoTrainState P × Except String Unit :=
  match process_batch_for_training To Tp s raw with
  | Except.error e => (s, Except.error e)
  | Except.ok (pb, s1) =>
    (train_on_batch_model gradStep emaStep s1 pb validate, Except.ok ())

/-! ## Checkpointing (`serialize` / `deserialize`, lines 395-432) -/

/-- A checkpoint mapping.  `optimizers` / `lr_schedulers` are `none`
when the key is missing (older checkpoints); `ema` is `none` when the
key is missing or stored as null (`model_dict.get("ema", None)` merges
the two), matching `serialize` writing null when EMA is disabled. -/
structure ModelDict (S : Type) where
  nets : S
  optimizers : Option (List (String × S))
  lr_schedulers : Option (List (String × Option S))
  ema : Option S
  deriving Repr, DecidableEq

/-- The parameter-holding state of the policy object as checkpointing
sees it: net parameters, optional EMA shadow parameters, named
optimizer states and named (nullable) LR-scheduler states. -/
structure CkptState (S : Type) where
  nets : S
  ema : Option S
  optimizers : List (String × S)
  lr_schedulers : List (String × Option S)
  deriving Repr, DecidableEq

/-- `serialize` (lines 395-404). -/
def serialize (s : CkptState S) : ModelDict S :=
  { nets := s.nets
    optimizers := some s.optimizers
    lr_schedulers := some s.lr_schedulers
    ema := s.ema }

/-- The loop `for k in model_dict["optimizers"]:
self.optimizers[k].load_state_dict(...)`; a key absent from the policy's
own table raises `KeyError`. -/
def load_named_states [DecidableEq S] (cur upd : List (String × S)) :
    Except String (List (String × S)) :=
  match upd with
  | [] => Except.ok cur
  | (k, v) :: rest =>
    if (cur.lookup k).isSome then
      load_named_states (cur.map fun p => if p.1 = k then (k, v) else p) rest
    else
      Except.error "KeyError"

/-- The loop over `model_dict["lr_schedulers"]`: null entries are
skipped, non-null entries are loaded into the named scheduler. -/
def load_scheduler_states [DecidableEq S] (cur upd : List (String × Option S)) :
    Except String (List (String × Option S)) :=
  match upd with
  | [] => Except.ok cur
  | (_, none) :: rest => load_scheduler_states cur rest
  | (k, some v) :: rest =>
    if (cur.lookup k).isSome then
      load_scheduler_states (cur.map fun p => if p.1 = k then (k, some v) else p) rest
    else
      Except.error "KeyError"

/-- `deserialize` (lines 406-432): always load `nets`; default a missing
`optimizers` / `lr_schedulers` key to an empty mapping; load the EMA
state only when it is present and non-null (doing so when the policy has
EMA disabled dereferences `None` — `AttributeError`); load optimizer and
scheduler states only when `load_optimizers` is set. -/
def deserialize [DecidableEq S] (s : CkptState S) (d : ModelDict S)
    (load_optimizers : Bool) : Except String (CkptState S) :=
  let s1 : CkptState S := { s with nets := d.nets }
  let opts := d.optimizers.getD []
  let lrs := d.lr_schedulers.getD []
  let after_ema : Except String (CkptState S) :=
    match d.ema with
    | some e =>
      match s1.ema with
      | some _ => Except.ok { s1 with ema := some e }
      | none => Except.error "AttributeError: NoneType has no averaged_model"
    | none => Except.ok s1
  match after_ema with
  | Except.error msg => Except.error msg
  | Except.ok s2 =>
    if load_optimizers then
      match load_named_states s2.optimizers opts with
      | Except.error msg => Except.error msg
      | Except.ok o =>
        match load_scheduler_states s2.lr_schedulers lrs with
        | Except.error msg => Except.error msg
        | Except.ok l => Except.ok { s2 with optimizers := o, lr_schedulers := l }
    else
      Except.ok s2

/-! ## Lemmas about the bounded deques -/

theorem deque_append_length (maxlen : Nat) (q : List A) (x : A) :
    (deque_append maxlen q x).length = min (q.length + 1) maxlen := by
  simp [deque_append]
  omega

theorem deque_extend_eq_drop (maxlen : Nat) (xs : List A) :
    ∀ q : List A, q.length ≤ maxlen →
      deque_extend maxlen q xs = (q ++ xs).drop (q.length + xs.length - maxlen) := by
  induction xs with
  | nil =>
    intro q h
    simp only [deque_extend, List.foldl_nil, List.append_nil, List.length_nil,
      Nat.add_zero]
    rw [Nat.sub_eq_zero_of_le h, List.drop_zero]
  | cons x rest ih =>
    intro q h
    have hfold : deque_extend maxlen q (x :: rest) =
        deque_extend maxlen (deque_append maxlen q x) rest := rfl
    have hlen : (deque_append maxlen q x).length = min (q.length + 1) maxlen :=
      deque_append_length maxlen q x
    rw [hfold, ih (deque_append maxlen q x) (by omega)]
    have hd0 : q.length + 1 - maxlen ≤ (q ++ [x]).length := by
      simp only [List.length_append, List.length_cons, List.length_nil]
      omega
    have happ : deque_append maxlen q x ++ rest =
        (q ++ (x :: rest)).drop (q.length + 1 - maxlen) := by
      have hsplit : q ++ (x :: rest) = (q ++ [x]) ++ rest := by simp
      rw [hsplit, List.drop_append_of_le_length hd0]
      rfl
    rw [happ, List.drop_drop]
    congr 1
    simp only [List.length_cons] at hlen ⊢
    omega

theorem deque_extend_length_le (maxlen : Nat) (q xs : List A)
    (h : q.length ≤ maxlen) : (deque_extend maxlen q xs).length ≤ maxlen := by
  rw [deque_extend_eq_drop maxlen xs q h]
  simp
  omega

theorem deque_extend_of_fits (maxlen : Nat) (q xs : List A)
    (h : q.length + xs.length ≤ maxlen) : deque_extend maxlen q xs = q ++ xs := by
  rw [deque_extend_eq_drop maxlen xs q (by omega)]
  rw [Nat.sub_eq_zero_of_le h]
  rfl

/-! ## Lemmas about `get_action` and `run_rollout` -/

theorem get_action_pop (sampler : O → List A) (s : QueueState O A) (obs : O)
    (a : A) (rest : List A) (h : s.action_queue = a :: rest) :
    get_action sampler s obs = some (a, { s with action_queue := rest }, false) := by
  simp [get_action, h]

theorem get_action_refill (sampler : O → List A) (s : QueueState O A) (obs : O)
    (hq : s.action_queue = []) (a : A) (t : List A)
    (hs : sampler obs = a :: t) (hcap : (sampler obs).length ≤ s.Ta) :
    get_action sampler s obs = some (a, { s with action_queue := t }, true) := by
  have hext : deque_extend s.Ta ([] : List A) (sampler obs) = a :: t := by
    rw [deque_extend_of_fits s.Ta [] (sampler obs) (by simpa using hcap), hs]
    rfl
  simp [get_action, hq, hext]

theorem get_action_cases (sampler : O → List A) (s : QueueState O A) (obs : O)
    (a : A) (s1 : QueueState O A) (b : Bool)
    (h : get_action sampler s obs = some (a, s1, b)) :
    s1.To = s.To ∧ s1.Ta = s.Ta ∧ s1.obs_queue = s.obs_queue ∧
      ((s.action_queue = [] ∧ b = true ∧
          deque_extend s.Ta s.action_queue (sampler obs) = a :: s1.action_queue) ∨
       (s.action_queue = a :: s1.action_queue ∧ b = false)) := by
  cases hqq : s.action_queue with
  | nil =>
    cases hde : deque_extend s.Ta s.action_queue (sampler obs) with
    | nil => simp [get_action, hqq, hqq ▸ hde] at h
    | cons x t =>
      rw [hqq] at hde
      simp [get_action, hqq, hde] at h
      obtain ⟨rfl, rfl, rfl⟩ := h
      exact ⟨rfl, rfl, rfl, Or.inl ⟨rfl, rfl, hde⟩⟩
  | cons x t =>
    simp [get_action, hqq] at h
    obtain ⟨rfl, rfl, rfl⟩ := h
    refine ⟨rfl, rfl, rfl, Or.inr ⟨?_, rfl⟩⟩
    simp [hqq]

theorem run_rollout_pop_only (sampler : O → List A) (obss : List O) :
    ∀ s : QueueState O A, obss.length ≤ s.action_queue.length →
      run_rollout sampler s obss =
        some (s.action_queue.take obss.length,
              { s with action_queue := s.action_queue.drop obss.length }, 0) := by
  induction obss with
  | nil => intro s h; simp [run_rollout]
  | cons o rest ih =>
    intro s h
    obtain ⟨a, t, hq⟩ : ∃ a t, s.action_queue = a :: t := by
      cases hqq : s.action_queue with
      | nil => rw [hqq] at h; simp at h
      | cons a t => exact ⟨a, t, rfl⟩
    have hr : rest.length ≤ t.length := by rw [hq] at h; simp at h; omega
    simp only [run_rollout, get_action_pop sampler s o a t hq,
      ih { s with action_queue := t } hr]
    simp [hq]

theorem run_rollout_append_ok (sampler : O → List A) (l1 l2 : List O) :
    ∀ (s s1 s2 : QueueState O A) (acts acts2 : List A) (n m : Nat),
      run_rollout sampler s l1 = some (acts, s1, n) →
      run_rollout sampler s1 l2 = some (acts2, s2, m) →
      run_rollout sampler s (l1 ++ l2) = some (acts ++ acts2, s2, n + m) := by
  induction l1 with
  | nil =>
    intro s s1 s2 acts acts2 n m h1 h2
    simp [run_rollout] at h1
    obtain ⟨rfl, rfl, rfl⟩ := h1
    simpa using h2
  | cons o rest ih =>
    intro s s1 s2 acts acts2 n m h1 h2
    cases hga : get_action sampler s o with
    | none =>
      simp only [run_rollout, hga] at h1
      exact Option.noConfusion h1
    | some r =>
      obtain ⟨a, s3, sampled⟩ := r
      cases hrr : run_rollout sampler s3 rest with
      | none =>
        simp only [run_rollout, hga, hrr] at h1
        exact Option.noConfusion h1
      | some r2 =>
        obtain ⟨acts3, s4, n3⟩ := r2
        simp only [run_rollout, hga, hrr, Option.some.injEq, Prod.mk.injEq] at h1
        obtain ⟨rfl, rfl, rfl⟩ := h1
        have hcomp := ih s3 s4 s2 acts3 acts2 n3 m hrr h2
        simp only [List.cons_append, run_rollout, hga, hcomp, Option.some.injEq,
          Prod.mk.injEq]
        cases sampled <;> simp [hcomp, Nat.add_assoc]

theorem run_rollout_cycle (sampler : O → List A) (s : QueueState O A) (o : O)
    (rest : List O) (hq : s.action_queue = [])
    (hlen : (sampler o).length = s.Ta) (hTa : 1 ≤ s.Ta)
    (hr : rest.length = s.Ta - 1) :
    run_rollout sampler s (o :: rest) = some (sampler o, s, 1) := by
  obtain ⟨a, t, hs⟩ : ∃ a t, sampler o = a :: t := by
    cases hss : sampler o with
    | nil => rw [hss] at hlen; simp at hlen; omega
    | cons a t => exact ⟨a, t, rfl⟩
  have ht : t.length = s.Ta - 1 := by rw [hs] at hlen; simp at hlen; omega
  simp only [run_rollout,
    get_action_refill sampler s o hq a t hs (le_of_eq hlen),
    run_rollout_pop_only sampler rest { s with action_queue := t } (by simp [ht, hr])]
  have htake : t.take rest.length = t := List.take_of_length_le (by omega)
  have hdrop : t.drop rest.length = [] := List.drop_eq_nil_of_le (by omega)
  have hst : ({ s with action_queue := ([] : List A) } : QueueState O A) = s := by
    cases s
    simp at hq
    simp [hq]
  simp [htake, hdrop, hst, hs]

theorem run_rollout_obs_queue (sampler : O → List A) (obss : List O) :
    ∀ (s s1 : QueueState O A) (acts : List A) (n : Nat),
      run_rollout sampler s obss = some (acts, s1, n) → s1.obs_queue = s.obs_queue := by
  induction obss with
  | nil =>
    intro s s1 acts n h
    simp [run_rollout] at h
    obtain ⟨rfl, rfl, rfl⟩ := h
    rfl
  | cons o rest ih =>
    intro s s1 acts n h
    cases hga : get_action sampler s o with
    | none =>
      simp only [run_rollout, hga] at h
      exact Option.noConfusion h
    | some r =>
      obtain ⟨a, s3, sampled⟩ := r
      cases hrr : run_rollout sampler s3 rest with
      | none =>
        simp only [run_rollout, hga, hrr] at h
        exact Option.noConfusion h
      | some r2 =>
        obtain ⟨acts3, s4, n3⟩ := r2
        simp only [run_rollout, hga, hrr, Option.some.injEq, Prod.mk.injEq] at h
        obtain ⟨rfl, rfl, rfl⟩ := h
        have h1 := (get_action_cases sampler s o a s3 sampled hga).2.2.1
        rw [ih s3 s4 acts3 n3 hrr, h1]

theorem policy_sampler_length (To Ta Tp : Nat) (denoise : O → List A) (o : O)
    (hTp : To - 1 + Ta ≤ Tp) (hd : (denoise o).length = Tp) :
    (policy_sampler To Ta denoise o).length = Ta := by
  simp [policy_sampler, action_window, hd]
  omega

/-! ## Claim theorems -/

/-- C1, counterexample: with `Ta = 1`, pushing a two-action trajectory
through `get_action` is not reported as an error — `deque_extend`
silently drops the oldest action `0` and the call succeeds, returning
the newer action `1`.  This refutes the claim that pushing beyond
capacity `Ta` is reported as a fatal error. -/
theorem C1_overflow_not_an_error :
    deque_extend 1 ([] : List Nat) [0, 1] = [1] ∧
    get_action (fun _ : Unit => [0, 1]) (reset 2 1) () = some (1, reset 2 1, true) := by
  constructor
  · rfl
  · rfl

/-- C1 (amended): the action queue never holds more than `Ta` entries —
`reset` starts it empty and `get_action` preserves the bound — but a
push beyond capacity is not an error: `deque_extend` totally computes
the newest `maxlen` entries, silently dropping the oldest. -/
theorem C1_action_queue_bounded (To Ta : Nat) (sampler : O → List A) :
    ((reset To Ta : QueueState O A).action_queue.length ≤ Ta) ∧
    (∀ (s : QueueState O A) (obs : O) (a : A) (s1 : QueueState O A) (b : Bool),
      get_action sampler s obs = some (a, s1, b) →
      s.action_queue.length ≤ s.Ta →
      s1.Ta = s.Ta ∧ s1.action_queue.length ≤ s1.Ta) ∧
    (∀ (maxlen : Nat) (q xs : List A), q.length ≤ maxlen →
      deque_extend maxlen q xs = (q ++ xs).drop (q.length + xs.length - maxlen)) := by
  refine ⟨by simp [reset], ?_, fun maxlen q xs h => deque_extend_eq_drop maxlen xs q h⟩
  intro s obs a s1 b h hle
  obtain ⟨hTo, hTa, hobs, hcase⟩ := get_action_cases sampler s obs a s1 b h
  refine ⟨hTa, ?_⟩
  rw [hTa]
  rcases hcase with ⟨hq, hb, hext⟩ | ⟨hq, hb⟩
  · have hlen := deque_extend_length_le s.Ta s.action_queue (sampler obs)
      (by rw [hq]; simp)
    rw [hext] at hlen
    simp at hlen
    omega
  · have hsucc : s.action_queue.length = s1.action_queue.length + 1 := by
      rw [hq]; simp
    omega

theorem C1_action_queue_bounded_witness :
    (((reset 2 1 : QueueState Unit Nat).Ta = (reset 2 1 : QueueState Unit Nat).Ta) ∧
      (reset 2 1 : QueueState Unit Nat).action_queue.length ≤
        (reset 2 1 : QueueState Unit Nat).Ta) ∧
    deque_extend 1 ([] : List Nat) [0, 1]
      = (([] : List Nat) ++ [0, 1]).drop (([] : List Nat).length + [0, 1].length - 1) := by
  constructor
  · exact (C1_action_queue_bounded 2 1 (fun _ : Unit => [5])).2.1 (reset 2 1) () 5
      (reset 2 1) true (by rfl) (by decide)
  · exact (C1_action_queue_bounded 2 1 (fun _ : Unit => [5])).2.2 1 [] [0, 1] (by decide)

/-- C2: from a `reset` state, under the configuration invariants
`To ≥ 1`, `Ta ≥ 1`, `Tp ≥ To - 1 + Ta` and the shape contract that the
denoised trajectory has length `Tp`, a run of `Ta` consecutive
`get_action` calls invokes the sampler exactly once, and a run of
`Ta + 1` calls invokes it exactly twice. -/
theorem C2_sampler_invocations (To Ta Tp : Nat) (denoise : O → List A)
    (hTo : 1 ≤ To) (hTa : 1 ≤ Ta) (hTp : To - 1 + Ta ≤ Tp)
    (hd : ∀ o, (denoise o).length = Tp) (obss : List O) :
    (obss.length = Ta →
      ∃ acts s1, run_rollout (policy_sampler To Ta denoise)
        (reset To Ta : QueueState O A) obss = some (acts, s1, 1)) ∧
    (obss.length = Ta + 1 →
      ∃ acts s1, run_rollout (policy_sampler To Ta denoise)
        (reset To Ta : QueueState O A) obss = some (acts, s1, 2)) := by
  constructor
  · intro hlen
    cases obss with
    | nil => simp at hlen; omega
    | cons o rest =>
      refine ⟨policy_sampler To Ta denoise o, reset To Ta, ?_⟩
      exact run_rollout_cycle _ _ o rest rfl
        (policy_sampler_length To Ta Tp denoise o hTp (hd o)) hTa
        (by show rest.length = Ta - 1; simp at hlen; omega)
  · intro hlen
    cases obss with
    | nil => simp at hlen
    | cons o rest =>
      have hrlen : rest.length = Ta := by simp at hlen; omega
      obtain ⟨o2, hdrop⟩ : ∃ o2, rest.drop (Ta - 1) = [o2] := by
        have h1 : (rest.drop (Ta - 1)).length = 1 := by simp [hrlen]; omega
        cases hdd : rest.drop (Ta - 1) with
        | nil => rw [hdd] at h1; simp at h1
        | cons x xs =>
          rw [hdd] at h1
          simp at h1
          exact ⟨x, by rw [h1]⟩
      have hsplit : o :: rest = (o :: rest.take (Ta - 1)) ++ rest.drop (Ta - 1) := by
        simp
      have hcyc := run_rollout_cycle (policy_sampler To Ta denoise)
        (reset To Ta : QueueState O A) o (rest.take (Ta - 1)) rfl
        (policy_sampler_length To Ta Tp denoise o hTp (hd o)) hTa
        (by show (rest.take (Ta - 1)).length = Ta - 1; simp [hrlen])
      obtain ⟨a2, t2, hs2⟩ : ∃ a t, policy_sampler To Ta denoise o2 = a :: t := by
        have h2 := policy_sampler_length To Ta Tp denoise o2 hTp (hd o2)
        cases hss : policy_sampler To Ta denoise o2 with
        | nil => rw [hss] at h2; simp at h2; omega
        | cons a t => exact ⟨a, t, rfl⟩
      have hone : run_rollout (policy_sampler To Ta denoise)
          (reset To Ta : QueueState O A) [o2]
          = some ([a2], { (reset To Ta : QueueState O A) with action_queue := t2 }, 1) := by
        simp only [run_rollout, get_action_refill (policy_sampler To Ta denoise)
          (reset To Ta : QueueState O A) o2 rfl a2 t2 hs2
          (le_of_eq (policy_sampler_length To Ta Tp denoise o2 hTp (hd o2)))]
        simp
      refine ⟨policy_sampler To Ta denoise o ++ [a2],
        { (reset To Ta : QueueState O A) with action_queue := t2 }, ?_⟩
      rw [hsplit, hdrop]
      exact run_rollout_append_ok (policy_sampler To Ta denoise)
        (o :: rest.take (Ta - 1)) [o2] (reset To Ta) (reset To Ta) _ _ [a2] 1 1
        hcyc hone

theorem C2_sampler_invocations_witness :
    ∃ acts s1, run_rollout (policy_sampler 2 4 (fun _ : Unit => [0, 1, 2, 3, 4, 5, 6, 7]))
      (reset 2 4) (List.replicate 5 ()) = some (acts, s1, 2) :=
  (C2_sampler_invocations 2 4 8 (fun _ : Unit => ([0, 1, 2, 3, 4, 5, 6, 7] : List Nat))
    (by decide) (by decide) (by decide) (fun _ => rfl) (List.replicate 5 ())).2 (by decide)

/-- C3: from a `reset` state, the actions returned by `Ta` consecutive
`get_action` calls are, element by element and in order, exactly the
`Ta`-entry trajectory the sampler produced for the observation passed
to the first (triggering) call — entry `i` of which is entry `To-1+i`
of the denoised `Tp`-step trajectory — each produced entry being
returned exactly once; the episode ends back in the `reset` state. -/
theorem C3_fifo_fidelity (To Ta Tp : Nat) (denoise : O → List A)
    (hTo : 1 ≤ To) (hTa : 1 ≤ Ta) (hTp : To - 1 + Ta ≤ Tp)
    (hd : ∀ o, (denoise o).length = Tp)
    (o : O) (rest : List O) (hr : rest.length = Ta - 1) :
    run_rollout (policy_sampler To Ta denoise) (reset To Ta : QueueState O A) (o :: rest)
      = some (policy_sampler To Ta denoise o, reset To Ta, 1) ∧
    (policy_sampler To Ta denoise o).length = Ta ∧
    (∀ i, i < Ta → (policy_sampler To Ta denoise o)[i]? = (denoise o)[To - 1 + i]?) := by
  refine ⟨run_rollout_cycle _ _ o rest rfl
      (policy_sampler_length To Ta Tp denoise o hTp (hd o)) hTa hr,
    policy_sampler_length To Ta Tp denoise o hTp (hd o), ?_⟩
  intro i hi
  simp [policy_sampler, action_window, List.getElem?_take, hi, List.getElem?_drop]

theorem C3_fifo_fidelity_witness :
    run_rollout (policy_sampler 2 4 (fun _ : Unit => [0, 1, 2, 3, 4, 5, 6, 7]))
        (reset 2 4) [(), (), (), ()]
      = some (policy_sampler 2 4 (fun _ : Unit => ([0, 1, 2, 3, 4, 5, 6, 7] : List Nat)) (),
          reset 2 4, 1) ∧
    (policy_sampler 2 4 (fun _ : Unit => ([0, 1, 2, 3, 4, 5, 6, 7] : List Nat)) ())[0]?
      = ([0, 1, 2, 3, 4, 5, 6, 7] : List Nat)[2 - 1 + 0]? := by
  have h := C3_fifo_fidelity 2 4 8 (fun _ : Unit => ([0, 1, 2, 3, 4, 5, 6, 7] : List Nat))
    (by decide) (by decide) (by decide) (fun _ => rfl) () [(), (), ()] (by decide)
  exact ⟨h.1, h.2.2 0 (by decide)⟩

/-- C10: the observation queue is write-only dead state: `reset` makes
both queues empty, no successful `get_action` changes the observation
queue, `get_action`'s result does not depend on the observation queue's
contents, the sampler is conditioned exactly on the `obs_dict` argument
of the call (the result depends on the sampler only through its value
at that argument), and every state reached from `reset` still has an
empty observation queue. -/
theorem C10_obs_queue_unused (To Ta : Nat) (sampler : O → List A) :
    ((reset To Ta : QueueState O A).obs_queue = [] ∧
      (reset To Ta : QueueState O A).action_queue = []) ∧
    (∀ (s : QueueState O A) (obs : O) (a : A) (s1 : QueueState O A) (b : Bool),
      get_action sampler s obs = some (a, s1, b) → s1.obs_queue = s.obs_queue) ∧
    (∀ (s : QueueState O A) (obs : O) (q : List O),
      get_action sampler { s with obs_queue := q } obs
        = (get_action sampler s obs).map
            fun r => (r.1, { r.2.1 with obs_queue := q }, r.2.2)) ∧
    (∀ (sampler2 : O → List A) (s : QueueState O A) (obs : O),
      sampler obs = sampler2 obs →
      get_action sampler s obs = get_action sampler2 s obs) ∧
    (∀ (obss : List O) (acts : List A) (s1 : QueueState O A) (n : Nat),
      run_rollout sampler (reset To Ta : QueueState O A) obss = some (acts, s1, n) →
      s1.obs_queue = []) := by
  refine ⟨⟨rfl, rfl⟩,
    fun s obs a s1 b h => (get_action_cases sampler s obs a s1 b h).2.2.1, ?_, ?_, ?_⟩
  · intro s obs q
    by_cases hc : s.action_queue.length = 0
    · cases hde : deque_extend s.Ta s.action_queue (sampler obs) with
      | nil => simp [get_action, hc, hde]
      | cons x t => simp [get_action, hc, hde]
    · cases hqq : s.action_queue with
      | nil => simp [hqq] at hc
      | cons x t => simp [get_action, hc, hqq]
  · intro sampler2 s obs h
    simp only [get_action, h]
  · intro obss acts s1 n h
    exact run_rollout_obs_queue sampler obss (reset To Ta) s1 acts n h

theorem C10_obs_queue_unused_witness :
    ((reset 2 1 : QueueState Unit Nat).obs_queue = [] ∧
      (reset 2 1 : QueueState Unit Nat).action_queue = []) ∧
    (reset 2 1 : QueueState Unit Nat).obs_queue = [] := by
  have h := C10_obs_queue_unused 2 1 (fun _ : Unit => [7])
  exact ⟨h.1, h.2.2.2.2 [()] [7] (reset 2 1) 1 (by rfl)⟩

theorem denoise_loop_length (predict : List A → Nat → List A)
    (sched_step : List A → Nat → List A → List A)
    (hstep : ∀ out k samp, (sched_step out k samp).length = samp.length)
    (timesteps : List Nat) :
    ∀ init : List A,
      (denoise_loop predict sched_step timesteps init).length = init.length := by
  induction timesteps with
  | nil => intro init; rfl
  | cons k rest ih =>
    intro init
    have hstepeq : denoise_loop predict sched_step (k :: rest) init
        = denoise_loop predict sched_step rest (sched_step (predict init k) k init) := rfl
    rw [hstepeq, ih (sched_step (predict init k) k init), hstep]

/-- C6: whenever the sampler runs in evaluation mode with a valid
diffusion variant, it returns exactly the sub-window `[To-1, To-1+Ta)`
along the time axis of the fully denoised `Tp`-length trajectory: under
the configuration invariant `Tp ≥ To - 1 + Ta` (and the scheduler's
shape-preservation contract) the result has exactly `Ta` entries and
entry `i` is entry `To - 1 + i` of the denoised trajectory. -/
theorem C6_action_window_slice (cfg : DiffusionConfig)
    (set_timesteps : Nat → List Nat) (encode : N → Obs → Cond)
    (predict : N → List A → Nat → Cond → List A)
    (sched_step : List A → Nat → List A → List A)
    (To Ta Tp : Nat) (nets : N) (ema : Option (EMAModel N)) (obs : Obs)
    (init_noise : List A)
    (hvar : cfg.ddpm_enabled = true ∨ cfg.ddim_enabled = true)
    (hTp : To - 1 + Ta ≤ Tp) (hinit : init_noise.length = Tp)
    (hstep : ∀ out k samp, (sched_step out k samp).length = samp.length) :
    ∃ naction : List A,
      get_action_trajectory false cfg set_timesteps encode predict sched_step
          To Ta nets ema obs init_noise
        = Except.ok (action_window To Ta naction) ∧
      naction.length = Tp ∧
      (action_window To Ta naction).length = Ta ∧
      (∀ i, i < Ta → (action_window To Ta naction)[i]? = naction[To - 1 + i]?) := by
  have hnot : ¬(cfg.ddpm_enabled = false ∧ cfg.ddim_enabled = false) := by
    rcases hvar with h | h <;> simp [h]
  refine ⟨denoise_loop
      (fun samp k => predict (select_nets nets ema) samp k
        (encode (select_nets nets ema) obs)) sched_step
      (set_timesteps (if cfg.ddpm_enabled then cfg.ddpm_num_inference_timesteps
        else cfg.ddim_num_inference_timesteps)) init_noise, ?_, ?_, ?_, ?_⟩
  · simp [get_action_trajectory, hnot]
  · rw [denoise_loop_length _ sched_step hstep _ init_noise, hinit]
  · have hlen := denoise_loop_length
      (fun samp k => predict (select_nets nets ema) samp k
        (encode (select_nets nets ema) obs)) sched_step hstep
      (set_timesteps (if cfg.ddpm_enabled then cfg.ddpm_num_inference_timesteps
        else cfg.ddim_num_inference_timesteps)) init_noise
    rw [hinit] at hlen
    simp [action_window, hlen]
    omega
  · intro i hi
    simp [action_window, List.getElem?_take, hi, List.getElem?_drop]

theorem C6_action_window_slice_witness :
    ∃ naction : List Nat,
      get_action_trajectory false ⟨true, false, 1, 1⟩ (fun n => List.range n)
          (fun (_ : Unit) (_ : Unit) => ()) (fun _ samp _ _ => samp)
          (fun _ _ samp => samp) 2 4 () none () [0, 1, 2, 3, 4, 5, 6, 7]
        = Except.ok (action_window 2 4 naction) ∧
      naction.length = 8 ∧
      (action_window 2 4 naction).length = 4 ∧
      (∀ i, i < 4 → (action_window 2 4 naction)[i]? = naction[2 - 1 + i]?) :=
  C6_action_window_slice ⟨true, false, 1, 1⟩ (fun n => List.range n)
    (fun (_ : Unit) (_ : Unit) => ()) (fun _ samp _ _ => samp) (fun _ _ samp => samp)
    2 4 8 () none () [0, 1, 2, 3, 4, 5, 6, 7]
    (Or.inl rfl) (by decide) (by decide) (fun _ _ _ => rfl)

/-- C7: the network set used by the sampler for both observation
encoding and noise prediction is selected once: when EMA is configured
the run is identical to a run whose trainable parameters are replaced by
the EMA shadow set `averaged_model` (and is independent of the trainable
parameters altogether); when EMA is disabled the trainable networks
themselves are selected. -/
theorem C7_ema_shadow_selection (training : Bool) (cfg : DiffusionConfig)
    (set_timesteps : Nat → List Nat) (encode : N → Obs → Cond)
    (predict : N → List A → Nat → Cond → List A)
    (sched_step : List A → Nat → List A → List A)
    (To Ta : Nat) (obs : Obs) (init_noise : List A) :
    (∀ (nets : N) (e : EMAModel N),
      get_action_trajectory training cfg set_timesteps encode predict sched_step
          To Ta nets (some e) obs init_noise
        = get_action_trajectory training cfg set_timesteps encode predict sched_step
          To Ta e.averaged_model none obs init_noise) ∧
    (∀ (nets1 nets2 : N) (e : EMAModel N),
      get_action_trajectory training cfg set_timesteps encode predict sched_step
          To Ta nets1 (some e) obs init_noise
        = get_action_trajectory training cfg set_timesteps encode predict sched_step
          To Ta nets2 (some e) obs init_noise) ∧
    (∀ nets : N, select_nets nets (none : Option (EMAModel N)) = nets) :=
  ⟨fun _ _ => rfl, fun _ _ _ => rfl, fun _ => rfl⟩

/-- C8: invoked while the networks are in training mode, the sampler
fails on the leading assertion — uniformly in the encoder, predictor,
scheduler and timestep sequence, so before any encoding or denoising
work; in evaluation mode that assertion never fires (any failure is a
different error). -/
theorem C8_training_mode_assertion (cfg : DiffusionConfig)
    (set_timesteps : Nat → List Nat) (encode : N → Obs → Cond)
    (predict : N → List A → Nat → Cond → List A)
    (sched_step : List A → Nat → List A → List A)
    (To Ta : Nat) (nets : N) (ema : Option (EMAModel N)) (obs : Obs)
    (init_noise : List A) :
    (∀ (set_timesteps2 : Nat → List Nat) (encode2 : N → Obs → Cond)
        (predict2 : N → List A → Nat → Cond → List A)
        (sched_step2 : List A → Nat → List A → List A),
      get_action_trajectory true cfg set_timesteps2 encode2 predict2 sched_step2
          To Ta nets ema obs init_noise
        = Except.error "AssertionError: not self.nets.training") ∧
    (get_action_trajectory false cfg set_timesteps encode predict sched_step
        To Ta nets ema obs init_noise
      ≠ Except.error "AssertionError: not self.nets.training") := by
  constructor
  · intro set_timesteps2 encode2 predict2 sched_step2
    rfl
  · simp only [get_action_trajectory, if_false, Bool.false_eq_true]
    split
    · intro h
      simp at h
    · intro h
      simp at h

/-- C4, counterexample: the range check runs on the actions sliced to
the first `Tp` timesteps (line 156 slices before line 158 checks).
With `Tp = 1`, a first training batch whose only out-of-range action
value `3/2` sits at timestep index 1 — outside the sliced window —
passes the check: the call succeeds, the check is cached and the
gradient step is applied, contradicting the claim that any
out-of-range action value in the first batch fails with a
range-violation error and leaves the trainable parameters unchanged. -/
theorem C4_counterexample :
    ((1 : ℚ) < 3 / 2) ∧
    train_step (fun (p : Nat) _ => p + 1) (fun sh _ => sh) 1 1
        ⟨false, (0 : Nat), none⟩ ⟨[[0]], none, [[[0], [3 / 2]]]⟩ false
      = (⟨true, (1 : Nat), none⟩, Except.ok ()) := by
  constructor
  · norm_num
  · rfl

/-- C4 (amended): on the first training batch of a run, if any action
value within the first `Tp` timesteps of some trajectory lies outside
`[-1, 1]`, batch processing fails with the range-violation `ValueError`
and no gradient step is applied: the algorithm state — check flag,
trainable parameters and EMA shadow parameters — is returned
unchanged. -/
theorem C4_range_violation_first_batch (gradStep : P → TrainBatch → P)
    (emaStep : P → P → P) (To Tp : Nat) (s : AlgoTrainState P)
    (raw : TrainBatch) (validate : Bool)
    (hflag : s.action_check_done = false)
    (hbad : ∃ traj ∈ raw.actions, ∃ a ∈ traj.take Tp, ∃ v ∈ a, ¬(-1 ≤ v ∧ v ≤ 1)) :
    train_step gradStep emaStep To Tp s raw validate
      = (s, Except.error
          "ValueError: actions must be in range [-1,1] for Diffusion Policy") := by
  have hfalse : actions_in_range (raw.actions.map (List.take Tp)) = false := by
    obtain ⟨traj, htraj, a, ha, v, hv, hviol⟩ := hbad
    by_contra hcon
    rw [Bool.not_eq_false] at hcon
    simp only [actions_in_range, List.all_eq_true, decide_eq_true_eq] at hcon
    exact hviol (hcon (traj.take Tp) (List.mem_map_of_mem _ htraj) a ha v hv)
  simp [train_step, process_batch_for_training, hflag, hfalse]

theorem C4_range_violation_witness :
    train_step (fun (p : Nat) _ => p + 1) (fun sh _ => sh) 1 1
        ⟨false, (0 : Nat), none⟩ ⟨[[0]], none, [[[3 / 2]]]⟩ false
      = (⟨false, (0 : Nat), none⟩, Except.error
          "ValueError: actions must be in range [-1,1] for Diffusion Policy") := by
  refine C4_range_violation_first_batch (fun (p : Nat) _ => p + 1) (fun sh _ => sh)
    1 1 ⟨false, (0 : Nat), none⟩ ⟨[[0]], none, [[[3 / 2]]]⟩ false rfl ?_
  refine ⟨[[3 / 2]], by simp, [3 / 2], by simp, 3 / 2, by simp, ?_⟩
  norm_num

/-- C5: once one batch has passed the `[-1,1]` range check, the cached
flag `action_check_done` is set and prevents any further checking: the
post-state of a successful processing call has the flag set, and from
such a state every subsequent batch — including one with action values
outside `[-1, 1]` — is processed without a range-violation error and
without further state change. -/
theorem C5_range_check_cached (To Tp : Nat) (s s1 : AlgoTrainState P)
    (b pb : TrainBatch)
    (h : process_batch_for_training To Tp s b = Except.ok (pb, s1)) :
    s1.action_check_done = true ∧
    ∀ b2 : TrainBatch, ∃ pb2,
      process_batch_for_training To Tp s1 b2 = Except.ok (pb2, s1) := by
  have hflag : s1.action_check_done = true := by
    cases hcd : s.action_check_done with
    | false =>
      cases hr : actions_in_range (b.actions.map (List.take Tp)) with
      | false => simp [process_batch_for_training, hcd, hr] at h
      | true =>
        simp [process_batch_for_training, hcd, hr] at h
        rw [← h.2]
    | true =>
      simp [process_batch_for_training, hcd] at h
      rw [← h.2]
      exact hcd
  refine ⟨hflag, fun b2 => ?_⟩
  refine ⟨{ obs := b2.obs.map (List.take To), goal_obs := b2.goal_obs,
            actions := b2.actions.map (List.take Tp) }, ?_⟩
  simp [process_batch_for_training, hflag]

theorem C5_range_check_cached_witness :
    (⟨true, (0 : ℚ), none⟩ : AlgoTrainState ℚ).action_check_done = true ∧
    ∃ pb2, process_batch_for_training 1 1 (⟨true, (0 : ℚ), none⟩ : AlgoTrainState ℚ)
        ⟨[[0]], none, [[[3 / 2]]]⟩
      = Except.ok (pb2, (⟨true, (0 : ℚ), none⟩ : AlgoTrainState ℚ)) := by
  have h := C5_range_check_cached 1 1 ⟨false, (0 : ℚ), none⟩ ⟨true, (0 : ℚ), none⟩
    ⟨[[0]], none, [[[0]]]⟩ ⟨[[0]], none, [[[0]]]⟩ (by rfl)
  exact ⟨h.1, h.2 ⟨[[0]], none, [[[3 / 2]]]⟩⟩

/-- C9: for every checkpoint mapping the load accepts (its `ema` entry
is absent/null, or the policy has EMA enabled), missing `optimizers` or
`lr_schedulers` keys are treated as empty mappings and `deserialize`
succeeds without error, leaving the policy's own optimizer and
scheduler tables unchanged; the `nets` state is always loaded from the
checkpoint, and the `ema` state is loaded exactly when present and
non-null. -/
theorem C9_deserialize_backcompat [DecidableEq S] (s : CkptState S)
    (d : ModelDict S) (lo : Bool)
    (hopt : d.optimizers = none) (hlr : d.lr_schedulers = none)
    (hema : d.ema = none ∨ s.ema.isSome = true) :
    ∃ s2, deserialize s d lo = Except.ok s2 ∧
      s2.nets = d.nets ∧
      s2.optimizers = s.optimizers ∧
      s2.lr_schedulers = s.lr_schedulers ∧
      s2.ema = (match d.ema with | some e => some e | none => s.ema) := by
  cases hde : d.ema with
  | none =>
    refine ⟨{ s with nets := d.nets }, ?_, rfl, rfl, rfl, by simp⟩
    simp only [deserialize, hopt, hlr, hde, Option.getD_none]
    cases lo <;> simp [load_named_states, load_scheduler_states]
  | some e =>
    obtain ⟨x, hx⟩ : ∃ x, s.ema = some x := by
      rcases hema with h | h
      · rw [hde] at h
        exact absurd h (by simp)
      · exact Option.isSome_iff_exists.mp h
    refine ⟨{ s with nets := d.nets, ema := some e }, ?_, rfl, rfl, rfl, by simp⟩
    simp only [deserialize, hopt, hlr, hde, hx, Option.getD_none]
    cases lo <;> simp [load_named_states, load_scheduler_states]

theorem C9_deserialize_backcompat_witness :
    ∃ s2, deserialize
        (⟨0, some 5, [("policy", 1)], [("policy", some 2)]⟩ : CkptState Nat)
        (⟨7, none, none, some 9⟩ : ModelDict Nat) true = Except.ok s2 ∧
      s2.nets = 7 ∧ s2.optimizers = [("policy", 1)] ∧
      s2.lr_schedulers = [("policy", some 2)] ∧ s2.ema = some 9 :=
  C9_deserialize_backcompat
    (⟨0, some 5, [("policy", 1)], [("policy", some 2)]⟩ : CkptState Nat)
    (⟨7, none, none, some 9⟩ : ModelDict Nat) true rfl rfl (Or.inr rfl)

theorem C8_training_mode_assertion_witness :
    get_action_trajectory true ⟨true, false, 1, 1⟩ (fun n => List.range n)
        (fun (_ : Unit) (_ : Unit) => ()) (fun _ samp _ _ => samp)
        (fun _ _ samp => samp) 2 4 () none () ([0] : List Nat)
      = Except.error "AssertionError: not self.nets.training" :=
  (C8_training_mode_assertion ⟨true, false, 1, 1⟩ (fun n => List.range n)
    (fun (_ : Unit) (_ : Unit) => ()) (fun _ samp _ _ => samp) (fun _ _ samp => samp)
    2 4 () none () ([0] : List Nat)).1 (fun n => List.range n)
    (fun _ _ => ()) (fun _ samp _ _ => samp) (fun _ _ samp => samp)

end DiffusionPolicy
